import Mathlib

/-!
Verification of pydal2sql-core against its specification.

The development shallowly embeds the parts of the package the claims are
about:

* a miniature Python abstract syntax tree mirroring the `ast` node shapes
  that `magic.py` inspects, together with the analyses and transformations
  of `magic.py` (`find_variables`, `find_missing_variables`,
  `find_defined_variables`, `remove_specific_variables`,
  `remove_local_imports`, `has_local_imports`, `extract_function_details`,
  `add_function_call`);
* the sanitization step `ensure_no_migrate_on_real_db` of
  `cli_support.py`;
* the bounded repair loop of `handle_cli` in `cli_support.py`, modelled as
  a fuel-indexed state machine over an abstract sequence of execution
  outcomes;
* the dialect validation of `_build_dummy_migrator` and the snapshot-diff
  routine `generate_alter_statement` of `core.py` (with the external pydal
  migrator modelled from the specification at its interface).

Python sets of strings are modelled as `List String` in which only
membership is meaningful; Python exceptions are modelled with `Except`.
-/

namespace Pydal2Sql

/-! ## Miniature Python AST

Node shapes follow the CPython `ast` module as consumed by `magic.py`:
expression contexts (`Load`/`Store`/`Del`) are stored on `Name` nodes,
statements carry lists of child statements in source order.  Only the
constructs the analysed functions branch on are represented; everything
else in a snippet behaves like the constructors below as far as those
functions are concerned.
-/

/-- Expression context of a `Name` node: `Load`, `Store` or `Del`. -/
inductive Ctx where
  | load
  | store
  | del_
deriving Repr, DecidableEq

/-- An `ast.alias` as appearing in `import`/`from ... import` statements:
the imported name and the optional `as` name. -/
structure ImportAlias where
  aname : String
  asname : Option String
deriving Repr, DecidableEq

/-- Python expressions (the fragment relevant to `magic.py`). -/
inductive Exp where
  | ename (id : String) (ctx : Ctx)
  | enum (n : Int)
  | estr (s : String)
  | eattr (value : Exp) (attrName : String)
  | ecall (func : Exp) (args : List Exp)
  | etuple (elts : List Exp) (ctx : Ctx)

/-- Python statements (the fragment relevant to `magic.py` and
`cli_support.py`).  `impor` is `import a as b, ...`; `importFrom` is
`from M import n as m, ...` with its relative `level`. -/
inductive Stmt where
  | assign (targets : List Exp) (value : Exp)
  | exprStmt (value : Exp)
  | impor (names : List ImportAlias)
  | importFrom (module : Option String) (names : List ImportAlias) (level : Nat)
  | forStmt (target : Exp) (iter : Exp) (body : List Stmt)
  | delStmt (targets : List Exp)
  | funcDef (fname : String) (body : List Stmt)
  | classDef (cname : String) (body : List Stmt)
  | ifStmt (test : Exp) (body : List Stmt) (orelse : List Stmt)
  | passStmt

/-- A module is its list of top-level statements (`ast.Module.body`). -/
abbrev Module := List Stmt

/-- A node of the tree, as handed to the visitor by `traverse_ast`. -/
inductive Node where
  | nstmt (s : Stmt)
  | nexp (e : Exp)

mutual

/-- Pre-order traversal of an expression, mirroring `traverse_ast` with
`ast.iter_child_nodes` (fields in CPython field order). -/
def preExp : Exp → List Node
  | .ename i c => [.nexp (.ename i c)]
  | .enum n => [.nexp (.enum n)]
  | .estr s => [.nexp (.estr s)]
  | .eattr v a => .nexp (.eattr v a) :: preExp v
  | .ecall f args => .nexp (.ecall f args) :: (preExp f ++ preExpList args)
  | .etuple elts c => .nexp (.etuple elts c) :: preExpList elts

/-- Pre-order traversal of a list of expressions. -/
def preExpList : List Exp → List Node
  | [] => []
  | e :: es => preExp e ++ preExpList es

end

mutual

/-- Pre-order traversal of a statement. -/
def preStmt : Stmt → List Node
  | .assign ts v => .nstmt (.assign ts v) :: (preExpList ts ++ preExp v)
  | .exprStmt v => .nstmt (.exprStmt v) :: preExp v
  | .impor ns => [.nstmt (.impor ns)]
  | .importFrom m ns l => [.nstmt (.importFrom m ns l)]
  | .forStmt t it b => .nstmt (.forStmt t it b) :: (preExp t ++ preExp it ++ preStmtList b)
  | .delStmt ts => .nstmt (.delStmt ts) :: preExpList ts
  | .funcDef n b => .nstmt (.funcDef n b) :: preStmtList b
  | .classDef n b => .nstmt (.classDef n b) :: preStmtList b
  | .ifStmt t b o => .nstmt (.ifStmt t b o) :: (preExp t ++ preStmtList b ++ preStmtList o)
  | .passStmt => [.nstmt .passStmt]

/-- Pre-order traversal of a list of statements. -/
def preStmtList : List Stmt → List Node
  | [] => []
  | s :: ss => preStmt s ++ preStmtList ss

end


/-! ## Static analyzer (`magic.py`)

`find_variables` walks the tree once with `traverse_ast`, applying five
collectors to every node in order (`collect_variables`,
`collect_definitions`, `collect_imported_names`, `collect_imports`,
`collect_loop_variables`).  A wildcard `from M import *` performs a
real module load of `M` and records its public names; the importable
universe is modelled by an environment.  Non-`Name` assignment targets make the
collector access a missing `.id` attribute (an `AttributeError`), and an
unimportable module raises `ModuleNotFoundError`; both are modelled as
analysis errors.
-/

/-- The runtime environment the analyzer consults: the builtin name
universe (`builtins.__dict__.keys()`) and, for each importable module,
its attribute list (`dir(module)`). -/
structure Env where
  builtinNames : List String
  modules : String → Option (List String)

/-- Exceptions `find_variables` can raise while collecting. -/
inductive AnalysisError where
  | attributeError
  | moduleNotFound (m : String)
  | indexError
deriving Repr, DecidableEq

/-- State of the five collectors of `find_variables`. -/
structure VarSets where
  used : List String
  defined : List String
  importedNames : List String
  loopVars : List String
deriving Repr, DecidableEq

/-- The initially empty collector state. -/
def VarSets.empty : VarSets := ⟨[], [], [], []⟩

/-- The name an `ast.alias` binds as recorded by the analyzer:
`alias.asname or alias.name`. -/
def ImportAlias.bound (a : ImportAlias) : String :=
  a.asname.getD a.aname

/-- `collect_definitions` reads `target.id` off every assignment target;
any non-`Name` target raises `AttributeError`. -/
def targetIds : List Exp → Except AnalysisError (List String)
  | [] => .ok []
  | .ename i _ :: ts =>
      match targetIds ts with
      | .error e => .error e
      | .ok rest => .ok (i :: rest)
  | _ :: _ => .error .attributeError

/-- Public (non-underscore-prefixed) names of a module's `dir` listing, as
recorded for a wildcard import. -/
def publicNames (l : List String) : List String :=
  l.filter (fun s => !s.startsWith "_")

/-- One visit of `collect_everything` on a single node: the five
collectors applied in their source order.  Set insertion is modelled by
`::` (membership is all that matters) and `set.discard` by `filter`. -/
def collectStep (env : Env) (st : VarSets) : Node → Except AnalysisError VarSets
  | .nexp (.ename i ctx) =>
      match ctx with
      | .load => .ok { st with used := i :: st.used }
      | .store => .ok { st with defined := i :: st.defined }
      | .del_ => .ok { st with defined := st.defined.filter (fun v => v ≠ i) }
  | .nexp _ => .ok st
  | .nstmt (.assign ts _) =>
      match targetIds ts with
      | .error e => .error e
      | .ok ids => .ok { st with defined := ids ++ st.defined }
  | .nstmt (.impor ns) =>
      .ok { st with importedNames := ns.map (fun a => a.aname) ++ st.importedNames }
  | .nstmt (.importFrom m ns _) =>
      match m with
      | none => .ok st
      | some modName =>
          -- collect_imported_names first: asname-or-name of every alias
          let st1 := { st with importedNames := ns.map ImportAlias.bound ++ st.importedNames }
          -- then collect_imports: import the module and inspect
          match env.modules modName with
          | none => .error (.moduleNotFound modName)
          | some dirNames =>
              match ns with
              | [] => .error .indexError
              | a :: _ =>
                  if a.aname = "*" then
                    .ok { st1 with importedNames := publicNames dirNames ++ st1.importedNames }
                  else
                    .ok { st1 with importedNames := ns.map ImportAlias.bound ++ st1.importedNames }
  | .nstmt (.forStmt t _ _) =>
      match t with
      | .ename i _ => .ok { st with loopVars := i :: st.loopVars }
      | _ => .ok st
  | .nstmt _ => .ok st

/-- Fold `collect_everything` over a pre-order node list, aborting on the
first exception, exactly as `traverse_ast` does. -/
def collectFold (env : Env) : List Node → VarSets → Except AnalysisError VarSets
  | [], st => .ok st
  | n :: ns, st =>
      match collectStep env st n with
      | .error e => .error e
      | .ok st1 => collectFold env ns st1

/-- `find_variables(code)` of `magic.py`: returns the used names and the
set of all satisfied names (`defined | imported_modules | loop_variables |
imported_names | BUILTINS`; `imported_modules` is never populated in the
source and is omitted). -/
def find_variables (env : Env) (m : Module) : Except AnalysisError (List String × List String) :=
  match collectFold env (preStmtList m) VarSets.empty with
  | .error e => .error e
  | .ok st => .ok (st.used, st.defined ++ st.loopVars ++ st.importedNames ++ env.builtinNames)

/-- `find_missing_variables(code)` of `magic.py`: used names not satisfied
by any binding the analyzer recorded. -/
def find_missing_variables (env : Env) (m : Module) : Except AnalysisError (List String) :=
  match find_variables env m with
  | .error e => .error e
  | .ok (used, allVars) => .ok (used.filter (fun v => v ∉ allVars))

/-- Fold of `collect_definitions` alone over a pre-order node list. -/
def collectDefsFold : List Node → List String → Except AnalysisError (List String)
  | [], acc => .ok acc
  | .nstmt (.assign ts _) :: ns, acc =>
      match targetIds ts with
      | .error e => .error e
      | .ok ids => collectDefsFold ns (ids ++ acc)
  | _ :: ns, acc => collectDefsFold ns acc

/-- `find_defined_variables(code)` of `magic.py`: only `collect_definitions`
is applied, collecting direct assignment-target names at every depth
(with the same `AttributeError` on non-`Name` targets). -/
def find_defined_variables (m : Module) : Except AnalysisError (List String) :=
  collectDefsFold (preStmtList m) []

/-- `has_local_imports(code)`: true when any `from ... import` at any
depth has a non-zero relative level (`find_local_imports` in `magic.py`).  -/
def has_local_imports (m : Module) : Bool :=
  (preStmtList m).any (fun n =>
    match n with
    | .nstmt (.importFrom _ _ lvl) => lvl > 0
    | _ => false)


/-! ## Claim-side syntactic predicates

Independent recursive definitions of the binding forms the claims talk
about, used to state the properties of `find_missing_variables` without
referring to its collector state.
-/

/-- Names a single node binds through a plain `Name` assignment target. -/
def nodeAssignNames : Node → List String
  | .nstmt (.assign ts _) =>
      ts.filterMap (fun t => match t with | .ename i _ => some i | _ => none)
  | _ => []

/-- All names bound anywhere in the module by a `Name` assignment target. -/
def assignTargetNames (m : Module) : List String :=
  (preStmtList m).flatMap nodeAssignNames

/-- Names a single node mentions in `Del` context. -/
def nodeDelNames : Node → List String
  | .nexp (.ename i .del_) => [i]
  | _ => []

/-- All names occurring in `Del` context (targets of `del` statements). -/
def delContextNames (m : Module) : List String :=
  (preStmtList m).flatMap nodeDelNames

/-- Names a single node binds as a simple (plain-`Name`) `for` target. -/
def nodeForTarget : Node → List String
  | .nstmt (.forStmt (.ename i _) _ _) => [i]
  | _ => []

/-- All simple `for`-loop target names of the module. -/
def simpleForTargets (m : Module) : List String :=
  (preStmtList m).flatMap nodeForTarget

/-- Names a single import node causes the analyzer to record: the literal
dotted module name of a plain `import`, the `as`-name (or name) of each
alias of an absolute `from ... import`, and for a wildcard the module's
public names.  Relative imports record nothing. -/
def nodeImportRecorded (env : Env) : Node → List String
  | .nstmt (.impor ns) => ns.map (fun a => a.aname)
  | .nstmt (.importFrom (some modName) ns _) =>
      ns.map ImportAlias.bound ++
        (match ns with
         | a :: _ =>
             if a.aname = "*" then publicNames ((env.modules modName).getD []) else []
         | [] => [])
  | _ => []

/-- All names the analyzer records from import statements of the module. -/
def importRecordedNames (env : Env) (m : Module) : List String :=
  (preStmtList m).flatMap (nodeImportRecorded env)

/-! ## Lemmas about the collector fold -/

/-- Shape of a successful collector step: `defined` either grows by a
prefix or gets filtered by exactly the name of a `Del`-context node, while
`importedNames` and `loopVars` only grow. -/
theorem collectStep_shape (env : Env) (st st' : VarSets) (n : Node)
    (h : collectStep env st n = .ok st') :
    ((∃ xs, st'.defined = xs ++ st.defined) ∨
      (∃ i, n = .nexp (.ename i .del_) ∧
        st'.defined = st.defined.filter (fun v => v ≠ i))) ∧
    (∃ ys, st'.importedNames = ys ++ st.importedNames) ∧
    (∃ zs, st'.loopVars = zs ++ st.loopVars) := by
  cases n with
  | nexp e =>
    cases e with
    | ename i ctx =>
      cases ctx with
      | load =>
        simp only [collectStep, Except.ok.injEq] at h
        subst h
        exact ⟨Or.inl ⟨[], rfl⟩, ⟨[], rfl⟩, ⟨[], rfl⟩⟩
      | store =>
        simp only [collectStep, Except.ok.injEq] at h
        subst h
        exact ⟨Or.inl ⟨[i], rfl⟩, ⟨[], rfl⟩, ⟨[], rfl⟩⟩
      | del_ =>
        simp only [collectStep, Except.ok.injEq] at h
        subst h
        exact ⟨Or.inr ⟨i, rfl, rfl⟩, ⟨[], rfl⟩, ⟨[], rfl⟩⟩
    | enum k =>
      simp only [collectStep, Except.ok.injEq] at h
      subst h
      exact ⟨Or.inl ⟨[], rfl⟩, ⟨[], rfl⟩, ⟨[], rfl⟩⟩
    | estr sV =>
      simp only [collectStep, Except.ok.injEq] at h
      subst h
      exact ⟨Or.inl ⟨[], rfl⟩, ⟨[], rfl⟩, ⟨[], rfl⟩⟩
    | eattr v a =>
      simp only [collectStep, Except.ok.injEq] at h
      subst h
      exact ⟨Or.inl ⟨[], rfl⟩, ⟨[], rfl⟩, ⟨[], rfl⟩⟩
    | ecall f args =>
      simp only [collectStep, Except.ok.injEq] at h
      subst h
      exact ⟨Or.inl ⟨[], rfl⟩, ⟨[], rfl⟩, ⟨[], rfl⟩⟩
    | etuple elts c =>
      simp only [collectStep, Except.ok.injEq] at h
      subst h
      exact ⟨Or.inl ⟨[], rfl⟩, ⟨[], rfl⟩, ⟨[], rfl⟩⟩
  | nstmt s =>
    cases s with
    | assign ts v =>
      simp only [collectStep] at h
      cases hts : targetIds ts with
      | error e => rw [hts] at h; cases h
      | ok ids =>
        rw [hts] at h
        simp only [Except.ok.injEq] at h
        subst h
        exact ⟨Or.inl ⟨ids, rfl⟩, ⟨[], rfl⟩, ⟨[], rfl⟩⟩
    | exprStmt v =>
      simp only [collectStep, Except.ok.injEq] at h
      subst h
      exact ⟨Or.inl ⟨[], rfl⟩, ⟨[], rfl⟩, ⟨[], rfl⟩⟩
    | impor ns =>
      simp only [collectStep, Except.ok.injEq] at h
      subst h
      exact ⟨Or.inl ⟨[], rfl⟩, ⟨_, rfl⟩, ⟨[], rfl⟩⟩
    | importFrom mo ns lvl =>
      cases mo with
      | none =>
        simp only [collectStep, Except.ok.injEq] at h
        subst h
        exact ⟨Or.inl ⟨[], rfl⟩, ⟨[], rfl⟩, ⟨[], rfl⟩⟩
      | some modName =>
        simp only [collectStep] at h
        cases hmod : env.modules modName with
        | none => rw [hmod] at h; cases h
        | some dirNames =>
          rw [hmod] at h
          cases ns with
          | nil => cases h
          | cons a rest =>
            dsimp only at h
            by_cases hw : a.aname = "*"
            · rw [if_pos hw] at h
              simp only [Except.ok.injEq] at h
              subst h
              refine ⟨Or.inl ⟨[], rfl⟩,
                ⟨publicNames dirNames ++ List.map ImportAlias.bound (a :: rest), ?_⟩,
                ⟨[], rfl⟩⟩
              simp [List.append_assoc]
            · rw [if_neg hw] at h
              simp only [Except.ok.injEq] at h
              subst h
              refine ⟨Or.inl ⟨[], rfl⟩,
                ⟨List.map ImportAlias.bound (a :: rest) ++ List.map ImportAlias.bound (a :: rest), ?_⟩,
                ⟨[], rfl⟩⟩
              simp [List.append_assoc]
    | forStmt t it b =>
      cases t with
      | ename i c =>
        simp only [collectStep, Except.ok.injEq] at h
        subst h
        exact ⟨Or.inl ⟨[], rfl⟩, ⟨[], rfl⟩, ⟨[i], rfl⟩⟩
      | enum k =>
        simp only [collectStep, Except.ok.injEq] at h
        subst h
        exact ⟨Or.inl ⟨[], rfl⟩, ⟨[], rfl⟩, ⟨[], rfl⟩⟩
      | estr sV =>
        simp only [collectStep, Except.ok.injEq] at h
        subst h
        exact ⟨Or.inl ⟨[], rfl⟩, ⟨[], rfl⟩, ⟨[], rfl⟩⟩
      | eattr v a =>
        simp only [collectStep, Except.ok.injEq] at h
        subst h
        exact ⟨Or.inl ⟨[], rfl⟩, ⟨[], rfl⟩, ⟨[], rfl⟩⟩
      | ecall f args =>
        simp only [collectStep, Except.ok.injEq] at h
        subst h
        exact ⟨Or.inl ⟨[], rfl⟩, ⟨[], rfl⟩, ⟨[], rfl⟩⟩
      | etuple elts c =>
        simp only [collectStep, Except.ok.injEq] at h
        subst h
        exact ⟨Or.inl ⟨[], rfl⟩, ⟨[], rfl⟩, ⟨[], rfl⟩⟩
    | delStmt ts =>
      simp only [collectStep, Except.ok.injEq] at h
      subst h
      exact ⟨Or.inl ⟨[], rfl⟩, ⟨[], rfl⟩, ⟨[], rfl⟩⟩
    | funcDef nm b =>
      simp only [collectStep, Except.ok.injEq] at h
      subst h
      exact ⟨Or.inl ⟨[], rfl⟩, ⟨[], rfl⟩, ⟨[], rfl⟩⟩
    | classDef nm b =>
      simp only [collectStep, Except.ok.injEq] at h
      subst h
      exact ⟨Or.inl ⟨[], rfl⟩, ⟨[], rfl⟩, ⟨[], rfl⟩⟩
    | ifStmt t b o =>
      simp only [collectStep, Except.ok.injEq] at h
      subst h
      exact ⟨Or.inl ⟨[], rfl⟩, ⟨[], rfl⟩, ⟨[], rfl⟩⟩
    | passStmt =>
      simp only [collectStep, Except.ok.injEq] at h
      subst h
      exact ⟨Or.inl ⟨[], rfl⟩, ⟨[], rfl⟩, ⟨[], rfl⟩⟩


/-- A single successful step never removes `v` from `defined` unless the
node is a `Del`-context occurrence of `v`. -/
theorem collectStep_defined_mono (env : Env) (st st' : VarSets) (n : Node) (v : String)
    (h : collectStep env st n = .ok st')
    (hnd : n ≠ .nexp (.ename v .del_))
    (hv : v ∈ st.defined) : v ∈ st'.defined := by
  obtain ⟨hdef, _, _⟩ := collectStep_shape env st st' n h
  rcases hdef with ⟨xs, hx⟩ | ⟨i, hni, hf⟩
  · rw [hx]; exact List.mem_append_right xs hv
  · rw [hf]
    rcases eq_or_ne v i with rfl | hne
    · exact absurd hni hnd
    · simp [List.mem_filter, hv, hne]

/-- A single successful step never removes anything from `importedNames`. -/
theorem collectStep_imported_mono (env : Env) (st st' : VarSets) (n : Node) (v : String)
    (h : collectStep env st n = .ok st') (hv : v ∈ st.importedNames) :
    v ∈ st'.importedNames := by
  obtain ⟨_, ⟨ys, hy⟩, _⟩ := collectStep_shape env st st' n h
  rw [hy]; exact List.mem_append_right ys hv

/-- A single successful step never removes anything from `loopVars`. -/
theorem collectStep_loop_mono (env : Env) (st st' : VarSets) (n : Node) (v : String)
    (h : collectStep env st n = .ok st') (hv : v ∈ st.loopVars) :
    v ∈ st'.loopVars := by
  obtain ⟨_, _, ⟨zs, hz⟩⟩ := collectStep_shape env st st' n h
  rw [hz]; exact List.mem_append_right zs hv

/-- Folding the collectors never removes `v` from `defined` when no node
of the list is a `Del`-context occurrence of `v`. -/
theorem collectFold_defined_mono (env : Env) (ns : List Node) (st st' : VarSets) (v : String)
    (h : collectFold env ns st = .ok st')
    (hnd : Node.nexp (.ename v .del_) ∉ ns)
    (hv : v ∈ st.defined) : v ∈ st'.defined := by
  induction ns generalizing st with
  | nil =>
    simp only [collectFold, Except.ok.injEq] at h
    exact h ▸ hv
  | cons n ns ih =>
    simp only [collectFold] at h
    cases hs : collectStep env st n with
    | error e => rw [hs] at h; cases h
    | ok st1 =>
      rw [hs] at h
      have hne : Node.nexp (.ename v .del_) ≠ n := fun hc => hnd (hc ▸ List.mem_cons_self n ns)
      have hnd' : Node.nexp (.ename v .del_) ∉ ns := fun hc => hnd (List.mem_cons_of_mem n hc)
      exact ih st1 h hnd' (collectStep_defined_mono env st st1 n v hs (fun hc => hne hc.symm) hv)

/-- Folding the collectors never removes anything from `importedNames`. -/
theorem collectFold_imported_mono (env : Env) (ns : List Node) (st st' : VarSets) (v : String)
    (h : collectFold env ns st = .ok st') (hv : v ∈ st.importedNames) :
    v ∈ st'.importedNames := by
  induction ns generalizing st with
  | nil =>
    simp only [collectFold, Except.ok.injEq] at h
    exact h ▸ hv
  | cons n ns ih =>
    simp only [collectFold] at h
    cases hs : collectStep env st n with
    | error e => rw [hs] at h; cases h
    | ok st1 =>
      rw [hs] at h
      exact ih st1 h (collectStep_imported_mono env st st1 n v hs hv)

/-- Folding the collectors never removes anything from `loopVars`. -/
theorem collectFold_loop_mono (env : Env) (ns : List Node) (st st' : VarSets) (v : String)
    (h : collectFold env ns st = .ok st') (hv : v ∈ st.loopVars) :
    v ∈ st'.loopVars := by
  induction ns generalizing st with
  | nil =>
    simp only [collectFold, Except.ok.injEq] at h
    exact h ▸ hv
  | cons n ns ih =>
    simp only [collectFold] at h
    cases hs : collectStep env st n with
    | error e => rw [hs] at h; cases h
    | ok st1 =>
      rw [hs] at h
      exact ih st1 h (collectStep_loop_mono env st st1 n v hs hv)

/-- When `collect_definitions` succeeds on a target list, every plain
`Name` target is among the returned ids. -/
theorem targetIds_mem (ts : List Exp) (ids : List String) (v : String) (c : Ctx)
    (h : targetIds ts = .ok ids) (hm : Exp.ename v c ∈ ts) : v ∈ ids := by
  induction ts generalizing ids with
  | nil => cases hm
  | cons t ts ih =>
    cases t with
    | ename i c2 =>
      simp only [targetIds] at h
      cases hts : targetIds ts with
      | error e => rw [hts] at h; cases h
      | ok rest =>
        rw [hts] at h
        simp only [Except.ok.injEq] at h
        subst h
        rcases List.mem_cons.mp hm with heq | htl
        · cases heq; exact List.mem_cons_self _ _
        · exact List.mem_cons_of_mem _ (ih rest hts htl)
    | enum k => simp only [targetIds] at h; cases h
    | estr sV => simp only [targetIds] at h; cases h
    | eattr e a => simp only [targetIds] at h; cases h
    | ecall f args => simp only [targetIds] at h; cases h
    | etuple elts c2 => simp only [targetIds] at h; cases h

/-- Processing an assignment node adds every plain `Name` target. -/
theorem collectStep_assign_adds (env : Env) (st st' : VarSets)
    (ts : List Exp) (val : Exp) (v : String) (c : Ctx)
    (h : collectStep env st (.nstmt (.assign ts val)) = .ok st')
    (hm : Exp.ename v c ∈ ts) : v ∈ st'.defined := by
  simp only [collectStep] at h
  cases hts : targetIds ts with
  | error e => rw [hts] at h; cases h
  | ok ids =>
    rw [hts] at h
    simp only [Except.ok.injEq] at h
    subst h
    exact List.mem_append_left st.defined (targetIds_mem ts ids v c hts hm)

/-- Processing a `for` node with a plain `Name` target adds the target. -/
theorem collectStep_for_adds (env : Env) (st st' : VarSets)
    (v : String) (c : Ctx) (it : Exp) (b : List Stmt)
    (h : collectStep env st (.nstmt (.forStmt (.ename v c) it b)) = .ok st') :
    v ∈ st'.loopVars := by
  simp only [collectStep, Except.ok.injEq] at h
  subst h
  exact List.mem_cons_self v st.loopVars

/-- Processing an import node adds every name it records. -/
theorem collectStep_import_adds (env : Env) (st st' : VarSets) (n : Node) (v : String)
    (h : collectStep env st n = .ok st')
    (hm : v ∈ nodeImportRecorded env n) : v ∈ st'.importedNames := by
  cases n with
  | nexp e => simp [nodeImportRecorded] at hm
  | nstmt s =>
    cases s with
    | impor ns =>
      simp only [collectStep, Except.ok.injEq] at h
      subst h
      simp only [nodeImportRecorded] at hm
      exact List.mem_append_left _ hm
    | importFrom mo ns lvl =>
      cases mo with
      | none => simp [nodeImportRecorded] at hm
      | some modName =>
        simp only [collectStep] at h
        cases hmod : env.modules modName with
        | none => rw [hmod] at h; cases h
        | some dirNames =>
          rw [hmod] at h
          cases ns with
          | nil => cases h
          | cons a rest =>
            dsimp only at h
            simp only [nodeImportRecorded, hmod, Option.getD_some] at hm
            by_cases hw : a.aname = "*"
            · rw [if_pos hw] at h
              simp only [Except.ok.injEq] at h
              subst h
              rw [if_pos hw] at hm
              rcases List.mem_append.mp hm with h1 | h2
              · exact List.mem_append_right _ (List.mem_append_left _ h1)
              · exact List.mem_append_left _ h2
            · rw [if_neg hw] at h
              simp only [Except.ok.injEq] at h
              subst h
              rw [if_neg hw] at hm
              rcases List.mem_append.mp hm with h1 | h2
              · exact List.mem_append_left _ h1
              · cases h2
    | assign ts val => simp [nodeImportRecorded] at hm
    | exprStmt e => simp [nodeImportRecorded] at hm
    | forStmt t it b => simp [nodeImportRecorded] at hm
    | delStmt ts => simp [nodeImportRecorded] at hm
    | funcDef nm b => simp [nodeImportRecorded] at hm
    | classDef nm b => simp [nodeImportRecorded] at hm
    | ifStmt t b o => simp [nodeImportRecorded] at hm
    | passStmt => simp [nodeImportRecorded] at hm


/-- Inversion: a name counted by `nodeAssignNames` comes from an
assignment node with a matching plain `Name` target. -/
theorem nodeAssignNames_inv (n : Node) (v : String) (hm : v ∈ nodeAssignNames n) :
    ∃ ts val c, n = .nstmt (.assign ts val) ∧ Exp.ename v c ∈ ts := by
  cases n with
  | nexp e => simp [nodeAssignNames] at hm
  | nstmt s =>
    cases s with
    | assign ts val =>
      simp only [nodeAssignNames, List.mem_filterMap] at hm
      obtain ⟨t, htm, hsome⟩ := hm
      cases t with
      | ename i c =>
        simp only [Option.some.injEq] at hsome
        subst hsome
        exact ⟨ts, val, c, rfl, htm⟩
      | enum k => cases hsome
      | estr sV => cases hsome
      | eattr e a => cases hsome
      | ecall f args => cases hsome
      | etuple elts c => cases hsome
    | exprStmt e => simp [nodeAssignNames] at hm
    | impor ns => simp [nodeAssignNames] at hm
    | importFrom mo ns lvl => simp [nodeAssignNames] at hm
    | forStmt t it b => simp [nodeAssignNames] at hm
    | delStmt ts => simp [nodeAssignNames] at hm
    | funcDef nm b => simp [nodeAssignNames] at hm
    | classDef nm b => simp [nodeAssignNames] at hm
    | ifStmt t b o => simp [nodeAssignNames] at hm
    | passStmt => simp [nodeAssignNames] at hm

/-- Inversion: a name counted by `nodeForTarget` comes from a `for` node
with that plain `Name` target. -/
theorem nodeForTarget_inv (n : Node) (v : String) (hm : v ∈ nodeForTarget n) :
    ∃ c it b, n = .nstmt (.forStmt (.ename v c) it b) := by
  cases n with
  | nexp e => simp [nodeForTarget] at hm
  | nstmt s =>
    cases s with
    | forStmt t it b =>
      cases t with
      | ename i c =>
        simp only [nodeForTarget, List.mem_singleton] at hm
        subst hm
        exact ⟨c, it, b, rfl⟩
      | enum k => simp [nodeForTarget] at hm
      | estr sV => simp [nodeForTarget] at hm
      | eattr e a => simp [nodeForTarget] at hm
      | ecall f args => simp [nodeForTarget] at hm
      | etuple elts c => simp [nodeForTarget] at hm
    | assign ts val => simp [nodeForTarget] at hm
    | exprStmt e => simp [nodeForTarget] at hm
    | impor ns => simp [nodeForTarget] at hm
    | importFrom mo ns lvl => simp [nodeForTarget] at hm
    | delStmt ts => simp [nodeForTarget] at hm
    | funcDef nm b => simp [nodeForTarget] at hm
    | classDef nm b => simp [nodeForTarget] at hm
    | ifStmt t b o => simp [nodeForTarget] at hm
    | passStmt => simp [nodeForTarget] at hm

/-- A name bound by a plain assignment target somewhere in the node list
and never mentioned in `Del` context ends up in `defined`. -/
theorem collectFold_adds_defined (env : Env) (ns : List Node) (st st' : VarSets) (v : String)
    (h : collectFold env ns st = .ok st')
    (hnd : Node.nexp (.ename v .del_) ∉ ns)
    (hv : v ∈ ns.flatMap nodeAssignNames) : v ∈ st'.defined := by
  induction ns generalizing st with
  | nil => cases hv
  | cons n ns ih =>
    simp only [collectFold] at h
    cases hs : collectStep env st n with
    | error e => rw [hs] at h; cases h
    | ok st1 =>
      rw [hs] at h
      have hnd' : Node.nexp (.ename v .del_) ∉ ns := fun hc => hnd (List.mem_cons_of_mem n hc)
      rw [List.flatMap_cons, List.mem_append] at hv
      rcases hv with h1 | h2
      · obtain ⟨ts, val, c, rfl, htm⟩ := nodeAssignNames_inv n v h1
        exact collectFold_defined_mono env ns st1 st' v h hnd'
          (collectStep_assign_adds env st st1 ts val v c hs htm)
      · exact ih st1 h hnd' h2

/-- A simple `for`-loop target somewhere in the node list ends up in
`loopVars`. -/
theorem collectFold_adds_loop (env : Env) (ns : List Node) (st st' : VarSets) (v : String)
    (h : collectFold env ns st = .ok st')
    (hv : v ∈ ns.flatMap nodeForTarget) : v ∈ st'.loopVars := by
  induction ns generalizing st with
  | nil => cases hv
  | cons n ns ih =>
    simp only [collectFold] at h
    cases hs : collectStep env st n with
    | error e => rw [hs] at h; cases h
    | ok st1 =>
      rw [hs] at h
      rw [List.flatMap_cons, List.mem_append] at hv
      rcases hv with h1 | h2
      · obtain ⟨c, it, b, rfl⟩ := nodeForTarget_inv n v h1
        exact collectFold_loop_mono env ns st1 st' v h
          (collectStep_for_adds env st st1 v c it b hs)
      · exact ih st1 h h2

/-- A name recorded by some import node of the list ends up in
`importedNames`. -/
theorem collectFold_adds_imported (env : Env) (ns : List Node) (st st' : VarSets) (v : String)
    (h : collectFold env ns st = .ok st')
    (hv : v ∈ ns.flatMap (nodeImportRecorded env)) : v ∈ st'.importedNames := by
  induction ns generalizing st with
  | nil => cases hv
  | cons n ns ih =>
    simp only [collectFold] at h
    cases hs : collectStep env st n with
    | error e => rw [hs] at h; cases h
    | ok st1 =>
      rw [hs] at h
      rw [List.flatMap_cons, List.mem_append] at hv
      rcases hv with h1 | h2
      · exact collectFold_imported_mono env ns st1 st' v h
          (collectStep_import_adds env st st1 n v hs h1)
      · exact ih st1 h h2


/-- Names satisfied by the analyzer after a successful pass. -/
theorem find_missing_filter (env : Env) (m : Module) (missing : List String)
    (h : find_missing_variables env m = .ok missing) :
    ∃ st, collectFold env (preStmtList m) VarSets.empty = .ok st ∧
      missing = st.used.filter
        (fun v => v ∉ (st.defined ++ st.loopVars ++ st.importedNames ++ env.builtinNames)) := by
  simp only [find_missing_variables, find_variables] at h
  cases hcf : collectFold env (preStmtList m) VarSets.empty with
  | error e => rw [hcf] at h; cases h
  | ok st =>
    rw [hcf] at h
    dsimp only at h
    simp only [Except.ok.injEq] at h
    exact ⟨st, rfl, h.symm⟩

/-- Claim C2 (amended).  For every snippet on which the analysis succeeds,
the set returned by `find_missing_variables` contains: no builtin name; no
name bound by a plain `Name` assignment target that is never mentioned in
`Del` context; no simple (plain-`Name`) `for`-loop target; and no name the
analyzer records from an import statement (the literal dotted module name
of a plain `import`, the `as`-name or imported name of each alias of an
absolute `from ... import`, and for a wildcard the module's public
non-underscore names).  The original claim — exclusion of every name bound
by any assignment, import or loop target — fails: `del` removes
assignment bindings from the satisfied set, a plain `import a as b` or
`import a.b` records the dotted source name rather than the name actually
bound, and relative imports record nothing (see the counterexample). -/
theorem C2_find_missing_excludes (env : Env) (m : Module) (missing : List String)
    (h : find_missing_variables env m = .ok missing) :
    (∀ v ∈ env.builtinNames, v ∉ missing) ∧
    (∀ v, v ∈ assignTargetNames m → v ∉ delContextNames m → v ∉ missing) ∧
    (∀ v ∈ simpleForTargets m, v ∉ missing) ∧
    (∀ v ∈ importRecordedNames env m, v ∉ missing) := by
  obtain ⟨st, hcf, rfl⟩ := find_missing_filter env m missing h
  have hnotin : ∀ v,
      v ∈ st.defined ++ st.loopVars ++ st.importedNames ++ env.builtinNames →
      v ∉ st.used.filter
        (fun v => v ∉ (st.defined ++ st.loopVars ++ st.importedNames ++ env.builtinNames)) := by
    intro v hv hmem
    rcases List.mem_filter.mp hmem with ⟨_, hdec⟩
    simp only [decide_eq_true_eq] at hdec
    exact hdec hv
  refine ⟨?_, ?_, ?_, ?_⟩
  · intro v hv
    exact hnotin v (by simp [List.mem_append, hv])
  · intro v hva hvd
    have hnd : Node.nexp (.ename v .del_) ∉ preStmtList m := by
      intro hc
      exact hvd (List.mem_flatMap.mpr ⟨_, hc, by simp [nodeDelNames]⟩)
    have : v ∈ st.defined :=
      collectFold_adds_defined env (preStmtList m) VarSets.empty st v hcf hnd hva
    exact hnotin v (by simp [List.mem_append, this])
  · intro v hv
    have : v ∈ st.loopVars :=
      collectFold_adds_loop env (preStmtList m) VarSets.empty st v hcf hv
    exact hnotin v (by simp [List.mem_append, this])
  · intro v hv
    have : v ∈ st.importedNames :=
      collectFold_adds_imported env (preStmtList m) VarSets.empty st v hcf hv
    exact hnotin v (by simp [List.mem_append, this])

/-- Snippet refuting claim C2 as stated, corresponding to the Python
source `import os as o` / `from . import q` / `x = 1` / `del x`
followed by uses of `o`, `q` and `x`. -/
def c2Snippet : Module :=
  [ .impor [⟨"os", some "o"⟩],
    .importFrom none [⟨"q", none⟩] 1,
    .assign [.ename "x" .store] (.enum 1),
    .delStmt [.ename "x" .del_],
    .exprStmt (.ename "o" .load),
    .exprStmt (.ename "q" .load),
    .exprStmt (.ename "x" .load) ]

/-- Environment for the C2 counterexample: no builtins are needed and no
module is consulted (the plain `import` and the relative import never
trigger a module lookup). -/
def c2Env : Env := ⟨[], fun _ => none⟩

/-- Claim C2 (counterexample).  In `c2Snippet`, `x` is bound by an
assignment target, `o` by an import statement (`import os as o`) and `q`
by an import statement (`from . import q`), yet `find_missing_variables`
reports all three as missing, refuting the claim that no assignment-bound
or import-bound name is ever returned. -/
theorem C2_counterexample :
    find_missing_variables c2Env c2Snippet = .ok ["x", "q", "o"] ∧
    "x" ∈ assignTargetNames c2Snippet := by
  constructor
  · rfl
  · simp [assignTargetNames, preStmtList, preStmt, preExpList, preExp, nodeAssignNames]

/-- Witness for the amended C2 theorem at a concrete snippet: in
`y = 1` followed by a use of `y` and of the builtin `print`, neither `y`
nor `print` is reported missing. -/
theorem C2_find_missing_excludes_witness :
    ("y" ∉ ["nope"] ∧ "print" ∉ ["nope"]) := by
  have h : find_missing_variables ⟨["print"], fun _ => none⟩
      [ .assign [.ename "y" .store] (.enum 1),
        .exprStmt (.ecall (.ename "print" .load) [.ename "y" .load]),
        .exprStmt (.ename "nope" .load) ] = .ok ["nope"] := rfl
  obtain ⟨hb, ha, _, _⟩ := C2_find_missing_excludes _ _ _ h
  refine ⟨?_, ?_⟩
  · exact ha "y" (by simp [assignTargetNames, preStmtList, preStmt, preExpList, preExp, nodeAssignNames])
      (by simp [delContextNames, preStmtList, preStmt, preExpList, preExp, nodeDelNames])
  · exact hb "print" (by simp)


/-! ## Code transformer (`magic.py`)

`remove_specific_variables` walks the tree with a handwritten recursion:
assignments lose the matching `Name` targets, function/class definitions
whose own name matches are deleted from the parent body.  The source
iterates `ast.iter_child_nodes(node)` while calling
`node.body.remove(child)` on deletions, so deleting a child shifts the
generator past the next sibling (which is kept but never examined), and a
deletion inside a child list other than `body` (e.g. an `else` branch)
makes `body.remove` raise `ValueError`.  Both behaviours are modelled
exactly.
-/

/-- The check `isinstance(target, ast.Name) and should_remove(target.id)`. -/
def isRmName (rm : List String) : Exp → Bool
  | .ename i _ => i ∈ rm
  | _ => false

mutual

/-- One visit of `remove_db_and_database_defs_rec` on one statement.
`.ok none` means the statement was deleted (a matching definition);
`.error ()` is the `ValueError` from `body.remove` missing its element. -/
def rsvStmt (rm : List String) : Stmt → Except Unit (Option Stmt)
  | .assign ts v =>
      .ok (some (.assign (ts.filter (fun t => !(isRmName rm t))) v))
  | .exprStmt v => .ok (some (.exprStmt v))
  | .impor ns => .ok (some (.impor ns))
  | .importFrom m ns l => .ok (some (.importFrom m ns l))
  | .forStmt t it b =>
      match rsvBody rm b with
      | .error e => .error e
      | .ok b2 => .ok (some (.forStmt t it b2))
  | .delStmt ts => .ok (some (.delStmt ts))
  | .funcDef n b =>
      if n ∈ rm then .ok none
      else
        match rsvBody rm b with
        | .error e => .error e
        | .ok b2 => .ok (some (.funcDef n b2))
  | .classDef n b =>
      if n ∈ rm then .ok none
      else
        match rsvBody rm b with
        | .error e => .error e
        | .ok b2 => .ok (some (.classDef n b2))
  | .ifStmt t b o =>
      match rsvBody rm b with
      | .error e => .error e
      | .ok b2 =>
          match rsvOrelse rm o with
          | .error e => .error e
          | .ok o2 => .ok (some (.ifStmt t b2 o2))
  | .passStmt => .ok (some .passStmt)

/-- Iteration over a `body` list: a deleted child is removed in place,
which shifts the live iterator so the next sibling is kept unvisited
(`rsvBodySkip`). -/
def rsvBody (rm : List String) : List Stmt → Except Unit (List Stmt)
  | [] => .ok []
  | s :: rest =>
      match rsvStmt rm s with
      | .error e => .error e
      | .ok (some s2) =>
          match rsvBody rm rest with
          | .error e => .error e
          | .ok rest2 => .ok (s2 :: rest2)
      | .ok none => rsvBodySkip rm rest

/-- Continuation of a `body` iteration right after an in-place removal:
the next sibling (if any) is kept without being visited, and the
iteration resumes after it. -/
def rsvBodySkip (rm : List String) : List Stmt → Except Unit (List Stmt)
  | [] => .ok []
  | t :: rest2 =>
      match rsvBody rm rest2 with
      | .error e => .error e
      | .ok rest3 => .ok (t :: rest3)

/-- Iteration over a child list that is not the parent's `body` (the
`orelse` branch of an `if`): deleting a child calls `body.remove` on a
list that does not contain it, raising `ValueError`. -/
def rsvOrelse (rm : List String) : List Stmt → Except Unit (List Stmt)
  | [] => .ok []
  | s :: rest =>
      match rsvStmt rm s with
      | .error e => .error e
      | .ok (some s2) =>
          match rsvOrelse rm rest with
          | .error e => .error e
          | .ok rest2 => .ok (s2 :: rest2)
      | .ok none => .error ()

end

/-- `remove_specific_variables(code, to_remove)` of `magic.py`: the
recursion applied to the module body (re-serialization by `ast.unparse`
is the identity on the tree). -/
def remove_specific_variables (rm : List String) (m : Module) : Except Unit Module :=
  rsvBody rm m

/-- `remove_local_imports(code)` of `magic.py`: a `NodeTransformer` drops
every `from ... import` with a non-zero relative level, at any depth. -/
def rliStmts : List Stmt → List Stmt
  | [] => []
  | .importFrom mo ns lvl :: rest =>
      if lvl > 0 then rliStmts rest else .importFrom mo ns lvl :: rliStmts rest
  | .forStmt t it b :: rest => .forStmt t it (rliStmts b) :: rliStmts rest
  | .funcDef n b :: rest => .funcDef n (rliStmts b) :: rliStmts rest
  | .classDef n b :: rest => .classDef n (rliStmts b) :: rliStmts rest
  | .ifStmt t b o :: rest => .ifStmt t (rliStmts b) (rliStmts o) :: rliStmts rest
  | s :: rest => s :: rliStmts rest

/-- `remove_local_imports` on a module. -/
def remove_local_imports (m : Module) : Module := rliStmts m

/-! ## Sanitization (`ensure_no_migrate_on_real_db` of `cli_support.py`) -/

/-- Errors of the sanitization step: a crash of the analyzer, a crash of
the remover, or the two `ValueError`s the function raises itself. -/
inductive SanitizeError where
  | analysisError (e : AnalysisError)
  | removeCrash
  | dbDefined (names : List String)
  | localImports
deriving Repr, DecidableEq

/-- The `for db_name in db_names` loop of `ensure_no_migrate_on_real_db`:
membership is tested against the variables of the original code; with
`fix`, the remover runs (possibly repeatedly); without, the name is
collected for the error message. -/
def ensureScan (vars allDbNames : List String) (fix : Bool) :
    List String → Module → List String → Except SanitizeError (Module × List String)
  | [], code, found => .ok (code, found)
  | n :: rest, code, found =>
      if n ∈ vars then
        if fix then
          match remove_specific_variables allDbNames code with
          | .error _ => .error .removeCrash
          | .ok code2 => ensureScan vars allDbNames fix rest code2 found
        else ensureScan vars allDbNames fix rest code (found ++ [n])
      else ensureScan vars allDbNames fix rest code found

/-- `ensure_no_migrate_on_real_db(code, db_names, fix)` of
`cli_support.py`. -/
def ensure_no_migrate_on_real_db (code : Module) (dbNames : List String) (fix : Bool) :
    Except SanitizeError Module :=
  match find_defined_variables code with
  | .error e => .error (.analysisError e)
  | .ok vars =>
      match ensureScan vars dbNames fix dbNames code [] with
      | .error e => .error e
      | .ok (code2, found) =>
          if found ≠ [] then .error (.dbDefined found)
          else if has_local_imports code2 then
            if fix then .ok (remove_local_imports code2)
            else .error .localImports
          else .ok code2


/-! ## Claim-side view of `remove_specific_variables` -/

mutual

/-- Whether a statement contains (or is) a function/class definition whose
own name is slated for removal — the only construct that triggers a
deletion. -/
def hasRmDef (rm : List String) : Stmt → Bool
  | .funcDef n b => n ∈ rm || hasRmDefs rm b
  | .classDef n b => n ∈ rm || hasRmDefs rm b
  | .forStmt _ _ b => hasRmDefs rm b
  | .ifStmt _ b o => hasRmDefs rm b || hasRmDefs rm o
  | _ => false

/-- `hasRmDef` over a statement list. -/
def hasRmDefs (rm : List String) : List Stmt → Bool
  | [] => false
  | s :: rest => hasRmDef rm s || hasRmDefs rm rest

end

mutual

/-- The intended effect of the remover on a single statement when no
definition is deleted: filter matching `Name` targets out of every
assignment, recursively. -/
def stripStmt (rm : List String) : Stmt → Stmt
  | .assign ts v => .assign (ts.filter (fun t => !(isRmName rm t))) v
  | .forStmt t it b => .forStmt t it (stripStmts rm b)
  | .funcDef n b => .funcDef n (stripStmts rm b)
  | .classDef n b => .classDef n (stripStmts rm b)
  | .ifStmt t b o => .ifStmt t (stripStmts rm b) (stripStmts rm o)
  | s => s

/-- `stripStmt` over a statement list. -/
def stripStmts (rm : List String) : List Stmt → List Stmt
  | [] => []
  | s :: rest => stripStmt rm s :: stripStmts rm rest

end

mutual

/-- Whether a statement mentions one of the removal names as a `Name`
assignment target anywhere (the only way `stripStmt` can change it). -/
def stmtTouchesRm (rm : List String) : Stmt → Bool
  | .assign ts _ => ts.any (isRmName rm)
  | .forStmt _ _ b => stmtsTouchRm rm b
  | .funcDef _ b => stmtsTouchRm rm b
  | .classDef _ b => stmtsTouchRm rm b
  | .ifStmt _ b o => stmtsTouchRm rm b || stmtsTouchRm rm o
  | _ => false

/-- `stmtTouchesRm` over a statement list. -/
def stmtsTouchRm (rm : List String) : List Stmt → Bool
  | [] => false
  | s :: rest => stmtTouchesRm rm s || stmtsTouchRm rm rest

end

mutual

/-- On definition-free statements the remover performs exactly the
assignment-target stripping. -/
theorem rsvStmt_clean (rm : List String) (s : Stmt) (h : hasRmDef rm s = false) :
    rsvStmt rm s = .ok (some (stripStmt rm s)) := by
  cases s with
  | assign ts v => simp [rsvStmt, stripStmt]
  | exprStmt v => simp [rsvStmt, stripStmt]
  | impor ns => simp [rsvStmt, stripStmt]
  | importFrom mo ns lvl => simp [rsvStmt, stripStmt]
  | forStmt t it b =>
    simp only [hasRmDef] at h
    simp [rsvStmt, stripStmt, rsvBody_clean rm b h]
  | delStmt ts => simp [rsvStmt, stripStmt]
  | funcDef n b =>
    simp only [hasRmDef, Bool.or_eq_false_iff] at h
    have hn : n ∉ rm := by simpa using h.1
    simp [rsvStmt, stripStmt, hn, rsvBody_clean rm b h.2]
  | classDef n b =>
    simp only [hasRmDef, Bool.or_eq_false_iff] at h
    have hn : n ∉ rm := by simpa using h.1
    simp [rsvStmt, stripStmt, hn, rsvBody_clean rm b h.2]
  | ifStmt t b o =>
    simp only [hasRmDef, Bool.or_eq_false_iff] at h
    simp [rsvStmt, stripStmt, rsvBody_clean rm b h.1, rsvOrelse_clean rm o h.2]
  | passStmt => simp [rsvStmt, stripStmt]

/-- On definition-free bodies the remover strips every statement and
deletes nothing. -/
theorem rsvBody_clean (rm : List String) (l : List Stmt) (h : hasRmDefs rm l = false) :
    rsvBody rm l = .ok (stripStmts rm l) := by
  cases l with
  | nil => simp [rsvBody, stripStmts]
  | cons s rest =>
    simp only [hasRmDefs, Bool.or_eq_false_iff] at h
    simp [rsvBody, stripStmts, rsvStmt_clean rm s h.1, rsvBody_clean rm rest h.2]

/-- On definition-free `orelse` lists the remover strips every statement
and never crashes. -/
theorem rsvOrelse_clean (rm : List String) (l : List Stmt) (h : hasRmDefs rm l = false) :
    rsvOrelse rm l = .ok (stripStmts rm l) := by
  cases l with
  | nil => simp [rsvOrelse, stripStmts]
  | cons s rest =>
    simp only [hasRmDefs, Bool.or_eq_false_iff] at h
    simp [rsvOrelse, stripStmts, rsvStmt_clean rm s h.1, rsvOrelse_clean rm rest h.2]

end


mutual

/-- A statement that never has a removal name as an assignment target is
left completely unchanged by the stripping. -/
theorem stripStmt_id (rm : List String) (s : Stmt) (h : stmtTouchesRm rm s = false) :
    stripStmt rm s = s := by
  cases s with
  | assign ts v =>
    simp only [stmtTouchesRm, List.any_eq_false] at h
    simp only [stripStmt]
    congr 1
    refine List.filter_eq_self.mpr ?_
    intro t ht
    simp [h t ht]
  | exprStmt v => rfl
  | impor ns => rfl
  | importFrom mo ns lvl => rfl
  | forStmt t it b =>
    simp only [stmtTouchesRm] at h
    simp [stripStmt, stripStmts_id rm b h]
  | delStmt ts => rfl
  | funcDef n b =>
    simp only [stmtTouchesRm] at h
    simp [stripStmt, stripStmts_id rm b h]
  | classDef n b =>
    simp only [stmtTouchesRm] at h
    simp [stripStmt, stripStmts_id rm b h]
  | ifStmt t b o =>
    simp only [stmtTouchesRm, Bool.or_eq_false_iff] at h
    simp [stripStmt, stripStmts_id rm b h.1, stripStmts_id rm o h.2]
  | passStmt => rfl

/-- `stripStmt_id` over a statement list. -/
theorem stripStmts_id (rm : List String) (l : List Stmt) (h : stmtsTouchRm rm l = false) :
    stripStmts rm l = l := by
  cases l with
  | nil => rfl
  | cons s rest =>
    simp only [stmtsTouchRm, Bool.or_eq_false_iff] at h
    simp [stripStmts, stripStmt_id rm s h.1, stripStmts_id rm rest h.2]

end

/-- Every assignment statement in a stripped module has lost all matching
`Name` targets. -/
theorem stripStmts_assign_clean (rm : List String) (m : Module) (ts : List Exp) (v : Exp)
    (hm : Stmt.assign ts v ∈ stripStmts rm m) : ts.any (isRmName rm) = false := by
  induction m with
  | nil => cases hm
  | cons s rest ih =>
    rcases List.mem_cons.mp (show Stmt.assign ts v ∈ stripStmt rm s :: stripStmts rm rest from hm) with heq | htl
    · cases s with
      | assign ts0 v0 =>
        simp only [stripStmt, Stmt.assign.injEq] at heq
        obtain ⟨hts, hv⟩ := heq
        subst hts
        refine List.any_eq_false.mpr ?_
        intro t ht
        rcases List.mem_filter.mp ht with ⟨_, hnot⟩
        simp only [Bool.not_eq_true'] at hnot
        simp [hnot]
      | exprStmt e => simp [stripStmt] at heq
      | impor ns => simp [stripStmt] at heq
      | importFrom mo ns lvl => simp [stripStmt] at heq
      | forStmt t it b => simp [stripStmt] at heq
      | delStmt ts2 => simp [stripStmt] at heq
      | funcDef n b => simp [stripStmt] at heq
      | classDef n b => simp [stripStmt] at heq
      | ifStmt t b o => simp [stripStmt] at heq
      | passStmt => simp [stripStmt] at heq
    · exact ih htl


/-- Claim C8 (amended).  `remove_specific_variables(code, names)`:
(1) on any snippet containing no function/class definition named in
`names`, it succeeds and performs exactly the intended stripping — every
matching `Name` target is dropped from every assignment and nothing else
changes; (2) hence every surviving assignment has no matching target, and
(3) statements that never use a removal name as an assignment target
(e.g. ones merely mentioning `my_database`) are preserved unchanged.
(4) However, deleting a function/class definition named in `names` shifts
the live child iterator, so the statement immediately following the
deleted definition is kept without being visited — an assignment to `db`
right after `def db(): ...` survives, which is what refutes the original
claim (see the counterexample). -/
theorem C8_remove_specific_variables (rm : List String) :
    (∀ m : Module, hasRmDefs rm m = false →
        remove_specific_variables rm m = .ok (stripStmts rm m)) ∧
    (∀ (m : Module) (ts : List Exp) (v : Exp),
        Stmt.assign ts v ∈ stripStmts rm m → ts.any (isRmName rm) = false) ∧
    (∀ s : Stmt, stmtTouchesRm rm s = false → stripStmt rm s = s) ∧
    (∀ (n : String) (b : List Stmt) (t : Stmt) (rest : List Stmt), n ∈ rm →
        rsvBody rm (Stmt.funcDef n b :: t :: rest) =
          (rsvBody rm rest).map (fun r => t :: r)) := by
  refine ⟨?_, ?_, ?_, ?_⟩
  · intro m h
    exact rsvBody_clean rm m h
  · intro m ts v hm
    exact stripStmts_assign_clean rm m ts v hm
  · intro s h
    exact stripStmt_id rm s h
  · intro n b t rest hn
    have hdel : rsvStmt rm (Stmt.funcDef n b) = .ok none := by
      simp [rsvStmt, hn]
    simp only [rsvBody, hdel, rsvBodySkip]
    cases rsvBody rm rest with
    | error e => rfl
    | ok r => rfl

/-- Claim C8 (counterexample).  For the snippet

  def db(): pass
  db = 1

with removal set `{"db"}`, the deletion of `def db` skips the very next
sibling, so the top-level assignment `db = 1` survives verbatim — the
claim that every top-level assignment to `db` is deleted is false. -/
theorem C8_counterexample :
    remove_specific_variables ["db"]
        [.funcDef "db" [.passStmt], .assign [.ename "db" .store] (.enum 1)] =
      .ok [.assign [.ename "db" .store] (.enum 1)] := rfl

/-- Witness for the amended C8 theorem: a definition-free snippet with a
two-target assignment `db = keep = 2` and an unrelated statement
`my_database = 3`; the remover drops exactly the `db` target. -/
theorem C8_remove_specific_variables_witness :
    remove_specific_variables ["db"]
        [.assign [.ename "db" .store, .ename "keep" .store] (.enum 2),
         .assign [.ename "my_database" .store] (.enum 3)] =
      .ok [.assign [.ename "keep" .store] (.enum 2),
           .assign [.ename "my_database" .store] (.enum 3)] := by
  have h := (C8_remove_specific_variables ["db"]).1
    [.assign [.ename "db" .store, .ename "keep" .store] (.enum 2),
     .assign [.ename "my_database" .store] (.enum 3)] (by rfl)
  rw [h]
  rfl


/-- Without the fix flag, the scan changes nothing and collects exactly
the reserved names that are bound somewhere in the snippet. -/
theorem ensureScan_nofix (vars allDb : List String) (names : List String)
    (code : Module) (found : List String) :
    ensureScan vars allDb false names code found =
      .ok (code, found ++ names.filter (fun n => n ∈ vars)) := by
  induction names generalizing found with
  | nil => simp [ensureScan]
  | cons n rest ih =>
    by_cases hn : n ∈ vars
    · simp [ensureScan, hn, ih, List.filter_cons, List.append_assoc]
    · simp [ensureScan, hn, ih, List.filter_cons]

/-- When no scanned name is bound, the scan is the identity for either
flag value. -/
theorem ensureScan_none (vars allDb : List String) (fix : Bool) (names : List String)
    (code : Module) (found : List String) (h : ∀ n ∈ names, n ∉ vars) :
    ensureScan vars allDb fix names code found = .ok (code, found) := by
  induction names with
  | nil => simp [ensureScan]
  | cons n rest ih =>
    have hn : n ∉ vars := h n (List.mem_cons_self n rest)
    simp only [ensureScan, if_neg hn]
    exact ih (fun x hx => h x (List.mem_cons_of_mem n hx))

/-- With the fix flag, the scan never collects a name for the rejection
message. -/
theorem ensureScan_fix_found (vars allDb : List String) (names : List String)
    (code : Module) (found : List String) (res : Module × List String)
    (h : ensureScan vars allDb true names code found = .ok res) : res.2 = found := by
  induction names generalizing code found with
  | nil =>
    simp only [ensureScan, Except.ok.injEq] at h
    rw [← h]
  | cons n rest ih =>
    by_cases hn : n ∈ vars
    · simp only [ensureScan, if_pos hn, if_true] at h
      cases hrm : remove_specific_variables allDb code with
      | error e => rw [hrm] at h; cases h
      | ok code2 =>
        rw [hrm] at h
        exact ih code2 found h
    · simp only [ensureScan, if_neg hn] at h
      exact ih code found h

/-- The scan can only fail with the remover crash. -/
theorem ensureScan_error (vars allDb : List String) (fix : Bool) (names : List String)
    (code : Module) (found : List String) (e : SanitizeError)
    (h : ensureScan vars allDb fix names code found = .error e) : e = .removeCrash := by
  induction names generalizing code found with
  | nil => simp [ensureScan] at h
  | cons n rest ih =>
    by_cases hn : n ∈ vars
    · by_cases hf : fix = true
      · subst hf
        simp only [ensureScan, if_pos hn, if_true] at h
        cases hrm : remove_specific_variables allDb code with
        | error e2 =>
          rw [hrm] at h
          simp only [Except.error.injEq] at h
          exact h.symm
        | ok code2 =>
          rw [hrm] at h
          exact ih code2 found h
      · have hf2 : fix = false := by
          cases fix
          · rfl
          · exact absurd rfl hf
        subst hf2
        simp only [ensureScan, if_pos hn, if_false] at h
        exact ih code (found ++ [n]) h
    · simp only [ensureScan, if_neg hn] at h
      exact ih code found h


/-- Claim C5 (amended).  `ensure_no_migrate_on_real_db` tests the reserved
names against `find_defined_variables`, which collects assignment targets
at every nesting depth, not only top-level ones.  Provided the analysis
succeeds with bound names `vars`: (i) with the repair flag disabled it
raises the reserved-variable error whenever some reserved name is bound
anywhere in the snippet (the message lists exactly the bound reserved
names); (ii) with the flag disabled and no reserved binding it raises the
local-import error whenever a relative import occurs at any depth;
(iii) a snippet with neither a reserved binding anywhere nor a
relative import anywhere is returned unchanged under either flag value;
(iv) with
the flag enabled neither rejection error is ever raised (the bindings and
relative imports are stripped instead, by the transformer of C8 with its
sibling-skipping deletions). -/
theorem C5_ensure_no_migrate (code : Module) (dbNames : List String) (vars : List String)
    (hv : find_defined_variables code = .ok vars) :
    ((∃ n ∈ dbNames, n ∈ vars) →
        ensure_no_migrate_on_real_db code dbNames false =
          .error (.dbDefined (dbNames.filter (fun n => n ∈ vars)))) ∧
    ((∀ n ∈ dbNames, n ∉ vars) → has_local_imports code = true →
        ensure_no_migrate_on_real_db code dbNames false = .error .localImports) ∧
    (∀ fix, (∀ n ∈ dbNames, n ∉ vars) → has_local_imports code = false →
        ensure_no_migrate_on_real_db code dbNames fix = .ok code) ∧
    (∀ found, ensure_no_migrate_on_real_db code dbNames true ≠ .error (.dbDefined found)) ∧
    (ensure_no_migrate_on_real_db code dbNames true ≠ .error .localImports) := by
  refine ⟨?_, ?_, ?_, ?_, ?_⟩
  · rintro ⟨n, hn, hnv⟩
    have hne : dbNames.filter (fun n => n ∈ vars) ≠ [] :=
      List.ne_nil_of_mem (List.mem_filter.mpr ⟨hn, by simp [hnv]⟩)
    simp only [ensure_no_migrate_on_real_db, hv, ensureScan_nofix, List.nil_append]
    rw [if_pos hne]
  · intro hnone hli
    have hfil : dbNames.filter (fun n => n ∈ vars) = [] := by
      refine List.filter_eq_nil_iff.mpr ?_
      intro n hn
      simp [hnone n hn]
    simp only [ensure_no_migrate_on_real_db, hv, ensureScan_nofix, List.nil_append, hfil]
    simp [hli]
  · intro fix hnone hli
    have hscan := ensureScan_none vars dbNames fix dbNames code [] hnone
    simp only [ensure_no_migrate_on_real_db, hv, hscan]
    simp [hli]
  · intro found
    simp only [ensure_no_migrate_on_real_db, hv]
    cases hscan : ensureScan vars dbNames true dbNames code [] with
    | error e =>
      have : e = .removeCrash := ensureScan_error vars dbNames true dbNames code [] e hscan
      subst this
      simp
    | ok pr =>
      obtain ⟨code2, found2⟩ := pr
      have : found2 = [] := ensureScan_fix_found vars dbNames dbNames code [] _ hscan
      subst this
      cases hli : has_local_imports code2 with
      | true => simp [hli]
      | false => simp [hli]
  · simp only [ensure_no_migrate_on_real_db, hv]
    cases hscan : ensureScan vars dbNames true dbNames code [] with
    | error e =>
      have : e = .removeCrash := ensureScan_error vars dbNames true dbNames code [] e hscan
      subst this
      simp
    | ok pr =>
      obtain ⟨code2, found2⟩ := pr
      have : found2 = [] := ensureScan_fix_found vars dbNames dbNames code [] _ hscan
      subst this
      cases hli : has_local_imports code2 with
      | true => simp [hli]
      | false => simp [hli]

/-- Claim C5 (counterexample).  The snippet

  def f():
      db = 1

contains no top-level binding of `db` or `database` and no relative
module load, so by the claim sanitization should return it unchanged
without raising; the function instead raises the reserved-variable error,
because
`find_defined_variables` sees the nested assignment. -/
theorem C5_counterexample :
    ensure_no_migrate_on_real_db
        [.funcDef "f" [.assign [.ename "db" .store] (.enum 1)]]
        ["db", "database"] false =
      .error (.dbDefined ["db"]) := rfl

/-- Witness for the amended C5 theorem: a snippet binding `db` at top
level is rejected with the flag disabled, and a clean snippet is returned
unchanged. -/
theorem C5_ensure_no_migrate_witness :
    ensure_no_migrate_on_real_db [.assign [.ename "db" .store] (.enum 1)]
        ["db", "database"] false = .error (.dbDefined ["db"]) ∧
    ensure_no_migrate_on_real_db [.assign [.ename "ok" .store] (.enum 1)]
        ["db", "database"] false = .ok [.assign [.ename "ok" .store] (.enum 1)] := by
  constructor
  · have h := (C5_ensure_no_migrate [.assign [.ename "db" .store] (.enum 1)]
      ["db", "database"] ["db"] rfl).1 ⟨"db", by simp, by simp⟩
    simpa using h
  · have h := (C5_ensure_no_migrate [.assign [.ename "ok" .store] (.enum 1)]
      ["db", "database"] ["ok"] rfl).2.2.1 false (by decide) rfl
    exact h


/-! ## `extract_function_details` and `add_function_call` (`magic.py`)

The call hint is a string such as `name` or `name(arg1, arg2)`.  The
source splits on `"("`; a hint without parentheses yields the default
argument list `["db"]`, a parenthesised hint is parsed and its `Call`
node inspected (empty argument lists also default to `["db"]`), and a
hint that fails to parse (or contains no call) yields `(None, [])`.  The
three outcomes are modelled as the three hint shapes; argument strings
round-trip through `ast.unparse`/`ast.parse`, so they are carried as
expressions directly. -/
inductive CallHint where
  | bare (fname : String)
  | withArgs (fname : String) (args : List Exp)
  | malformed

/-- `extract_function_details(function_call)` of `magic.py`. -/
def extract_function_details : CallHint → Option String × List Exp
  | .bare f => (some f, [.ename "db" .load])
  | .withArgs f [] => (some f, [.ename "db" .load])
  | .withArgs f args => (some f, args)
  | .malformed => (none, [])

/-- Names of top-level `def` statements, as scanned by the insertion loop
(`for i, node in enumerate(tree.body)`). -/
def topLevelDefNames (m : Module) : List String :=
  m.filterMap (fun s => match s with | .funcDef n _ => some n | _ => none)

/-- Insert a statement right after the first top-level `def` with the
given name; leave the body untouched when there is none. -/
def insertAfterFirstDef (fn : String) (c : Stmt) : List Stmt → List Stmt
  | [] => []
  | .funcDef n b :: rest =>
      if n = fn then .funcDef n b :: c :: rest
      else .funcDef n b :: insertAfterFirstDef fn c rest
  | s :: rest => s :: insertAfterFirstDef fn c rest

/-- `add_function_call(code, function_call)` of `magic.py`.  With a
malformed hint the built `Name(id=None)` matches no definition, so the
loop leaves the body unchanged. -/
def add_function_call (m : Module) (hint : CallHint) : Module :=
  match extract_function_details hint with
  | (none, _) => m
  | (some fn, args) => insertAfterFirstDef fn (.exprStmt (.ecall (.ename fn .load) args)) m

/-- Anything in the body after insertion is either an original statement
or the inserted call. -/
theorem insertAfterFirstDef_mem (fn : String) (c : Stmt) (l : List Stmt) (s : Stmt)
    (h : s ∈ insertAfterFirstDef fn c l) : s ∈ l ∨ s = c := by
  induction l with
  | nil => cases h
  | cons hd rest ih =>
    cases hd with
    | funcDef n b =>
      by_cases hn : n = fn
      · rw [insertAfterFirstDef, if_pos hn] at h
        rcases List.mem_cons.mp h with rfl | h2
        · exact Or.inl (List.mem_cons_self _ _)
        · rcases List.mem_cons.mp h2 with rfl | h3
          · exact Or.inr rfl
          · exact Or.inl (List.mem_cons_of_mem _ h3)
      · rw [insertAfterFirstDef, if_neg hn] at h
        rcases List.mem_cons.mp h with rfl | h2
        · exact Or.inl (List.mem_cons_self _ _)
        · rcases ih h2 with h3 | h3
          · exact Or.inl (List.mem_cons_of_mem _ h3)
          · exact Or.inr h3
    | assign ts v =>
      rcases List.mem_cons.mp h with rfl | h2
      · exact Or.inl (List.mem_cons_self _ _)
      · rcases ih h2 with h3 | h3
        · exact Or.inl (List.mem_cons_of_mem _ h3)
        · exact Or.inr h3
    | exprStmt v =>
      rcases List.mem_cons.mp h with rfl | h2
      · exact Or.inl (List.mem_cons_self _ _)
      · rcases ih h2 with h3 | h3
        · exact Or.inl (List.mem_cons_of_mem _ h3)
        · exact Or.inr h3
    | impor ns =>
      rcases List.mem_cons.mp h with rfl | h2
      · exact Or.inl (List.mem_cons_self _ _)
      · rcases ih h2 with h3 | h3
        · exact Or.inl (List.mem_cons_of_mem _ h3)
        · exact Or.inr h3
    | importFrom mo ns lvl =>
      rcases List.mem_cons.mp h with rfl | h2
      · exact Or.inl (List.mem_cons_self _ _)
      · rcases ih h2 with h3 | h3
        · exact Or.inl (List.mem_cons_of_mem _ h3)
        · exact Or.inr h3
    | forStmt t it b =>
      rcases List.mem_cons.mp h with rfl | h2
      · exact Or.inl (List.mem_cons_self _ _)
      · rcases ih h2 with h3 | h3
        · exact Or.inl (List.mem_cons_of_mem _ h3)
        · exact Or.inr h3
    | delStmt ts =>
      rcases List.mem_cons.mp h with rfl | h2
      · exact Or.inl (List.mem_cons_self _ _)
      · rcases ih h2 with h3 | h3
        · exact Or.inl (List.mem_cons_of_mem _ h3)
        · exact Or.inr h3
    | classDef n b =>
      rcases List.mem_cons.mp h with rfl | h2
      · exact Or.inl (List.mem_cons_self _ _)
      · rcases ih h2 with h3 | h3
        · exact Or.inl (List.mem_cons_of_mem _ h3)
        · exact Or.inr h3
    | ifStmt t b o =>
      rcases List.mem_cons.mp h with rfl | h2
      · exact Or.inl (List.mem_cons_self _ _)
      · rcases ih h2 with h3 | h3
        · exact Or.inl (List.mem_cons_of_mem _ h3)
        · exact Or.inr h3
    | passStmt =>
      rcases List.mem_cons.mp h with rfl | h2
      · exact Or.inl (List.mem_cons_self _ _)
      · rcases ih h2 with h3 | h3
        · exact Or.inl (List.mem_cons_of_mem _ h3)
        · exact Or.inr h3

/-- With no matching top-level `def`, insertion is the identity. -/
theorem insertAfterFirstDef_nodef (fn : String) (c : Stmt) (l : List Stmt)
    (h : fn ∉ topLevelDefNames l) : insertAfterFirstDef fn c l = l := by
  induction l with
  | nil => rfl
  | cons hd rest ih =>
    have hrest : fn ∉ topLevelDefNames rest := by
      intro hc
      refine h ?_
      simp only [topLevelDefNames, List.filterMap_cons] at *
      cases hd <;> simp_all [List.mem_cons]
    cases hd with
    | funcDef n b =>
      have hn : n ≠ fn := by
        intro rfl2
        refine h ?_
        simp [topLevelDefNames, List.filterMap_cons, rfl2]
      rw [insertAfterFirstDef, if_neg hn, ih hrest]
    | assign ts v => exact congrArg (List.cons _) (ih hrest)
    | exprStmt v => exact congrArg (List.cons _) (ih hrest)
    | impor ns => exact congrArg (List.cons _) (ih hrest)
    | importFrom mo ns lvl => exact congrArg (List.cons _) (ih hrest)
    | forStmt t it b => exact congrArg (List.cons _) (ih hrest)
    | delStmt ts => exact congrArg (List.cons _) (ih hrest)
    | classDef n b => exact congrArg (List.cons _) (ih hrest)
    | ifStmt t b o => exact congrArg (List.cons _) (ih hrest)
    | passStmt => exact congrArg (List.cons _) (ih hrest)


/-- Claim C9.  `add_function_call(code, hint)`: a hint without a
parenthesised argument list produces a call with exactly one positional
argument referencing the sandbox variable `db` (every statement of the
output that is not from the input is exactly that call); and whenever no
top-level function definition with the hinted name exists, the
transformation is a no-op for every hint shape — no call is added and no
exception is raised (the function is total). -/
theorem C9_add_function_call :
    (∀ (m : Module) (f : String) (s : Stmt),
        s ∈ add_function_call m (.bare f) →
        s ∈ m ∨ s = .exprStmt (.ecall (.ename f .load) [.ename "db" .load])) ∧
    (∀ (m : Module) (f : String), f ∉ topLevelDefNames m →
        add_function_call m (.bare f) = m) ∧
    (∀ (m : Module) (f : String) (args : List Exp), f ∉ topLevelDefNames m →
        add_function_call m (.withArgs f args) = m) ∧
    (∀ m : Module, add_function_call m .malformed = m) := by
  refine ⟨?_, ?_, ?_, ?_⟩
  · intro m f s h
    exact insertAfterFirstDef_mem f _ m s h
  · intro m f hf
    exact insertAfterFirstDef_nodef f _ m hf
  · intro m f args hf
    cases args with
    | nil => exact insertAfterFirstDef_nodef f _ m hf
    | cons a rest => exact insertAfterFirstDef_nodef f _ m hf
  · intro m
    rfl

/-- Witness for C9 at a concrete snippet: hinting `define_tables` when
only `g` is defined changes nothing, and hinting `g` appends exactly
`g(db)` after the definition. -/
theorem C9_add_function_call_witness :
    add_function_call [.funcDef "g" [.passStmt]] (.bare "define_tables") =
      [.funcDef "g" [.passStmt]] ∧
    (Stmt.exprStmt (.ecall (.ename "g" .load) [.ename "db" .load]) ∈
        add_function_call [.funcDef "g" [.passStmt]] (.bare "g") →
      Stmt.exprStmt (.ecall (.ename "g" .load) [.ename "db" .load]) ∈
          ([.funcDef "g" [.passStmt]] : Module) ∨
        Stmt.exprStmt (.ecall (.ename "g" .load) [.ename "db" .load]) =
          .exprStmt (.ecall (.ename "g" .load) [.ename "db" .load])) := by
  constructor
  · exact C9_add_function_call.2.1 [.funcDef "g" [.passStmt]] "define_tables"
      (by intro hc; simp [topLevelDefNames] at hc)
  · intro hmem
    exact C9_add_function_call.1 [.funcDef "g" [.passStmt]] "g" _ hmem


/-! ## The repair loop of `handle_cli` (`cli_support.py`)

The loop is modelled as a fuel-indexed recursion on the retry counter.
One execution attempt of the generated scaffold is abstracted into its
observable outcome; the loop body then follows `handle_cli` exactly:

* success: handle the output and `return True`;
* `ValueError` whose text is not the sentinel: print it, `return False`;
* the `no-tables-found` sentinel: when a candidate function is found the
  call is appended and the loop `continue`s — skipping the
  `retry_counter < 1` check at the bottom of the body — otherwise
  guidance is printed and the function returns `False`;
* `NameError`: with repair disabled, report the analyzer's missing names
  minus the protocol variables and `return False`; with repair enabled,
  patch and fall through to the bottom check;
* `ImportError` and a `KeyError` matching the missing-relation pattern:
  patch and fall through to the bottom check;
* a `KeyError` not matching the pattern: re-raised out of `handle_cli`;
* any other exception: the counter is forced to zero so the bottom check
  fires, printing the budget diagnostic with the error text.

The bottom check prints the budget diagnostic and returns `False` when
the counter has reached zero; when the `while` condition itself fails
(only reachable through the `continue` path) the function returns `False`
with no diagnostic at all.
-/

/-- `MAX_RETRIES` of `cli_support.py`. -/
def MAX_RETRIES : Nat := 30

/-- The protocol variables seeded into the execution scope and subtracted
from the reported missing names (`magic_vars` in `handle_cli`). -/
def magicVars : List String := ["_file", "DummyDAL", "_special_tables", "_uniq", "_excl"]

/-- Observable outcome of executing the generated scaffold once.
`noTablesFound` carries whether a candidate define-tables function was
found in the generated code; `nameError` carries the analyzer's missing
names for the current scaffold and the error text; `relationError`
carries the table name when the KeyError text matches the
missing-relation pattern (`none` when it does not). -/
inductive Outcome where
  | success
  | valueError (msg : String)
  | noTablesFound (functionFound : Bool)
  | nameError (missing : List String) (msg : String)
  | importError (msg : String)
  | relationError (matchedTable : Option String) (msg : String)
  | otherError (msg : String)
deriving Repr, DecidableEq

/-- The user-facing diagnostic a terminating path prints, if any. -/
inductive Report where
  | valueErrorMsg (msg : String)
  | noTablesGuidance
  | missingNames (names : List String)
  | budgetExhausted (err : Option String)
deriving Repr, DecidableEq

/-- How `handle_cli` leaves the loop: an ordinary `return`, or an
exception propagating out. -/
inductive ExitKind where
  | returned (value : Bool)
  | raised (msg : String)
deriving Repr, DecidableEq

/-- Result of running the repair loop: the exit, the number of
build-execute iterations performed, and the final diagnostic. -/
structure LoopResult where
  exit : ExitKind
  iterations : Nat
  report : Option Report
deriving Repr, DecidableEq

/-- The `while retry_counter:` loop of `handle_cli`, with the counter as
fuel, the attempt index, and the last stored error (`err`). -/
def loopRun (magic : Bool) (outcomes : Nat → Outcome) :
    Nat → Nat → Option String → LoopResult
  | 0, _, _ => ⟨.returned false, 0, none⟩
  | Nat.succ c, idx, lastErr =>
      match outcomes idx with
      | .success => ⟨.returned true, 1, none⟩
      | .valueError msg => ⟨.returned false, 1, some (.valueErrorMsg msg)⟩
      | .noTablesFound found =>
          if found then
            let r := loopRun magic outcomes c (idx + 1) lastErr
            ⟨r.exit, r.iterations + 1, r.report⟩
          else ⟨.returned false, 1, some .noTablesGuidance⟩
      | .nameError missing msg =>
          if magic then
            if c < 1 then ⟨.returned false, 1, some (.budgetExhausted (some msg))⟩
            else
              let r := loopRun magic outcomes c (idx + 1) (some msg)
              ⟨r.exit, r.iterations + 1, r.report⟩
          else ⟨.returned false, 1,
            some (.missingNames (missing.filter (fun v => v ∉ magicVars)))⟩
      | .importError msg =>
          if c < 1 then ⟨.returned false, 1, some (.budgetExhausted (some msg))⟩
          else
            let r := loopRun magic outcomes c (idx + 1) (some msg)
            ⟨r.exit, r.iterations + 1, r.report⟩
      | .relationError matchedTable msg =>
          match matchedTable with
          | none => ⟨.raised msg, 1, none⟩
          | some _ =>
              if c < 1 then ⟨.returned false, 1, some (.budgetExhausted (some msg))⟩
              else
                let r := loopRun magic outcomes c (idx + 1) (some msg)
                ⟨r.exit, r.iterations + 1, r.report⟩
      | .otherError msg => ⟨.returned false, 1, some (.budgetExhausted (some msg))⟩

/-- The repair loop as entered by `handle_cli`: full budget, first
attempt, no stored error. -/
def handle_cli_loop (magic : Bool) (outcomes : Nat → Outcome) : LoopResult :=
  loopRun magic outcomes MAX_RETRIES 0 none

/-- The loop performs at most as many build-execute iterations as it has
fuel. -/
theorem loopRun_iterations_le (magic : Bool) (outcomes : Nat → Outcome) :
    ∀ (c idx : Nat) (e : Option String),
      (loopRun magic outcomes c idx e).iterations ≤ c := by
  intro c
  induction c with
  | zero => intro idx e; simp [loopRun]
  | succ c ih =>
    intro idx e
    cases ho : outcomes idx with
    | success => simp [loopRun, ho]
    | valueError msg => simp [loopRun, ho]
    | noTablesFound found =>
      cases found with
      | true =>
        simp only [loopRun, ho, if_true]
        have := ih (idx + 1) e
        omega
      | false => simp [loopRun, ho]
    | nameError missing msg =>
      cases magic with
      | true =>
        by_cases hlow : c < 1
        · simp [loopRun, ho, hlow]
        · simp only [loopRun, ho, if_true, if_neg hlow]
          have := ih (idx + 1) (some msg)
          omega
      | false => simp [loopRun, ho]
    | importError msg =>
      by_cases hlow : c < 1
      · simp [loopRun, ho, hlow]
      · simp only [loopRun, ho, if_neg hlow]
        have := ih (idx + 1) (some msg)
        omega
    | relationError matchedTable msg =>
      cases matchedTable with
      | none => simp [loopRun, ho]
      | some t =>
        by_cases hlow : c < 1
        · simp [loopRun, ho, hlow]
        · simp only [loopRun, ho, if_neg hlow]
          have := ih (idx + 1) (some msg)
          omega
    | otherError msg => simp [loopRun, ho]

/-- Claim C1.  The bounded part of the claim holds: the loop always
terminates within `MAX_RETRIES` (30) build-execute iterations, one fuel
unit per iteration (second conjunct).  The reporting part does not: when
every attempt raises the `no-tables-found` sentinel and a candidate
function is found each time, the `continue` path skips the bottom budget
check, the `while` condition fails after 30 iterations, and `handle_cli`
returns `False` through its final `return False` with no diagnostic at
all — the last observed error is not reported on exhaustion (first
conjunct: the exhausted run carries `report = none`). -/
theorem C1_repair_loop_budget :
    handle_cli_loop false (fun _ => .noTablesFound true) =
      ⟨.returned false, 30, none⟩ ∧
    (∀ (magic : Bool) (outcomes : Nat → Outcome),
        (handle_cli_loop magic outcomes).iterations ≤ MAX_RETRIES) := by
  constructor
  · rfl
  · intro magic outcomes
    exact loopRun_iterations_le magic outcomes MAX_RETRIES 0 none

/-- Claim C4.  With repair disabled, a missing-name failure ends the run
on that very iteration: the loop returns `False`, performs exactly this
one build-execute iteration (no repair, no further retry), and reports
the analyzer's missing-name set minus the protocol variables. -/
theorem C4_name_error_fatal (outcomes : Nat → Outcome) (c idx : Nat) (e : Option String)
    (missing : List String) (msg : String)
    (ho : outcomes idx = .nameError missing msg) (hc : 1 ≤ c) :
    loopRun false outcomes c idx e =
      ⟨.returned false, 1,
        some (.missingNames (missing.filter (fun v => v ∉ magicVars)))⟩ := by
  cases c with
  | zero => omega
  | succ c => simp [loopRun, ho]

/-- Witness for C4: a run whose first attempt raises a `NameError` with
missing names `foo` and `_file` reports only `foo` (the protocol variable
is subtracted) and stops after one iteration. -/
theorem C4_name_error_fatal_witness :
    loopRun false (fun _ => .nameError ["foo", "_file"] "NameError: foo") 30 0 none =
      ⟨.returned false, 1, some (.missingNames ["foo"])⟩ := by
  have h := C4_name_error_fatal (fun _ => .nameError ["foo", "_file"] "NameError: foo")
    30 0 none ["foo", "_file"] "NameError: foo" rfl (by omega)
  rw [h]
  rfl

/-- Claim C6 (amended).  An unclassified exception is fatal on that
iteration with the budget forced to zero and the diagnostic carrying the
error text, and a non-sentinel `ValueError` is likewise fatal on that
iteration with the error text printed; but a `KeyError` that does not
match the missing-relation pattern is re-raised out of `handle_cli`
without any user diagnostic, rather than being surfaced. -/
theorem C6_unclassified_fatal (magic : Bool) (outcomes : Nat → Outcome) (c idx : Nat)
    (e : Option String) (hc : 1 ≤ c) :
    (∀ msg, outcomes idx = .otherError msg →
        loopRun magic outcomes c idx e =
          ⟨.returned false, 1, some (.budgetExhausted (some msg))⟩) ∧
    (∀ msg, outcomes idx = .valueError msg →
        loopRun magic outcomes c idx e = ⟨.returned false, 1, some (.valueErrorMsg msg)⟩) ∧
    (∀ msg, outcomes idx = .relationError none msg →
        loopRun magic outcomes c idx e = ⟨.raised msg, 1, none⟩) := by
  cases c with
  | zero => omega
  | succ c =>
    refine ⟨?_, ?_, ?_⟩
    · intro msg ho; simp [loopRun, ho]
    · intro msg ho; simp [loopRun, ho]
    · intro msg ho; simp [loopRun, ho]

/-- Claim C6 (counterexample).  A `KeyError` whose text does not match
the missing-relation pattern is an unclassified failure, yet the run
neither forces the budget to zero with a diagnostic nor shows the error:
it re-raises out of `handle_cli` (`exit = raised`, `report = none`),
refuting the claim that every unclassified failure is surfaced to the
user. -/
theorem C6_counterexample :
    handle_cli_loop false (fun _ => .relationError none "KeyError: unmatched") =
      ⟨.raised "KeyError: unmatched", 1, none⟩ := rfl

/-- Witness for the amended C6 theorem: a run whose first attempt raises
an unclassified exception stops after one iteration with the budget
diagnostic carrying the error text. -/
theorem C6_unclassified_fatal_witness :
    loopRun false (fun _ => .otherError "ZeroDivisionError") 30 0 none =
      ⟨.returned false, 1, some (.budgetExhausted (some "ZeroDivisionError"))⟩ :=
  (C6_unclassified_fatal false (fun _ => .otherError "ZeroDivisionError") 30 0 none
    (by omega)).1 "ZeroDivisionError" rfl


/-! ## Dialect validation (`_build_dummy_migrator` of `core.py`) -/

/-- The alias table of `_build_dummy_migrator`. -/
def ALIASES : List (String × String) :=
  [("postgresql", "psycopg2"), ("postgres", "psycopg2"), ("psql", "psycopg2"),
   ("sqlite", "sqlite3"), ("sqlite:memory", "sqlite3"), ("mysql", "pymysql")]

/-- `get_typing_args(SUPPORTED_DATABASE_TYPES)` of `types.py`: the
canonical driver names. -/
def SUPPORTED_DATABASE_TYPES : List String := ["psycopg2", "sqlite3", "pymysql"]

/-- `get_typing_args(SUPPORTED_DATABASE_TYPES_WITH_ALIASES)` of
`types.py`: the canonical drivers together with the recognized aliases,
as enumerated in the configuration error. -/
def SUPPORTED_DATABASE_TYPES_WITH_ALIASES : List String :=
  ["psycopg2", "sqlite3", "pymysql", "postgresql", "postgres", "psql", "sqlite", "mysql"]

/-- Python's `str.lower()` on one ASCII character. -/
def lowerChar (c : Char) : Char :=
  if 'A' ≤ c ∧ c ≤ 'Z' then Char.ofNat (c.toNat + 32) else c

/-- Python's `str.lower()` restricted to the ASCII range of dialect
names. -/
def strToLower (s : String) : String := ⟨s.data.map lowerChar⟩

/-- Driver-name resolution of `_build_dummy_migrator`: lowercase, then
the alias table with the lowercased name itself as fallback. -/
def resolveDriverName (s : String) : String :=
  (ALIASES.lookup (strToLower s)).getD (strToLower s)

/-- The two `ValueError`s `_build_dummy_migrator` can raise: an
unsupported dialect (carrying the enumerated supported set) or an
uninstalled driver. -/
inductive MigratorError where
  | unsupported (driver : String) (supported : List String)
  | driverMissing (driver : String)
deriving Repr, DecidableEq

/-- The validation prefix of `_build_dummy_migrator(_driver_name)`:
resolve the name, reject unsupported dialects (before any compilation),
then check driver availability (`db._drivers_available`, modelled by the
`available` list).  On success the canonical driver name selects the
adapter and dialect. -/
def _build_dummy_migrator (driverName : String) (available : List String) :
    Except MigratorError String :=
  let d := resolveDriverName driverName
  if d ∈ SUPPORTED_DATABASE_TYPES then
    if d ∈ available then .ok d
    else .error (.driverMissing d)
  else .error (.unsupported d SUPPORTED_DATABASE_TYPES_WITH_ALIASES)

/-- Claim C7.  A `db_type` whose lowercased name is neither a canonical
driver nor a recognized alias makes `_build_dummy_migrator` raise the
configuration error enumerating the supported set, before any
compilation and independently of driver availability; the aliases
`postgres`, `postgresql` and `psql` all resolve to the canonical
Postgres driver `psycopg2`; and inside `handle_cli` such a `ValueError`
ends the run after a single iteration — it is never retried. -/
theorem C7_unsupported_dialect :
    (∀ name : String,
        strToLower name ∉ SUPPORTED_DATABASE_TYPES →
        (ALIASES.lookup (strToLower name)) = none →
        ∀ available : List String,
          _build_dummy_migrator name available =
            .error (.unsupported (strToLower name) SUPPORTED_DATABASE_TYPES_WITH_ALIASES)) ∧
    resolveDriverName "postgres" = "psycopg2" ∧
    resolveDriverName "postgresql" = "psycopg2" ∧
    resolveDriverName "psql" = "psycopg2" ∧
    (∀ (magic : Bool) (outcomes : Nat → Outcome) (c idx : Nat) (e : Option String)
        (msg : String), 1 ≤ c → outcomes idx = .valueError msg →
        (loopRun magic outcomes c idx e).iterations = 1) := by
  refine ⟨?_, rfl, rfl, rfl, ?_⟩
  · intro name hns hlk available
    have hd : resolveDriverName name = strToLower name := by
      simp [resolveDriverName, hlk]
    simp [_build_dummy_migrator, hd, hns]
  · intro magic outcomes c idx e msg hc ho
    cases c with
    | zero => omega
    | succ c => simp [loopRun, ho]

/-- Witness for C7 at the dialect name `ORACLE`: it is rejected with the
enumerated supported set, for any availability. -/
theorem C7_unsupported_dialect_witness :
    _build_dummy_migrator "ORACLE" ["psycopg2", "sqlite3", "pymysql"] =
      .error (.unsupported "oracle" SUPPORTED_DATABASE_TYPES_WITH_ALIASES) := by
  have h := C7_unsupported_dialect.1 "ORACLE" (by decide) (by decide)
    ["psycopg2", "sqlite3", "pymysql"]
  simpa using h


/-! ## Snapshot diff (`generate_alter_statement` of `core.py`)

A table snapshot carries its name, its field metadata and its `_db`
reference.  `sql_fields_through_tablefile` runs the snapshot through the
schema compiler's table-creation path into a scratch folder and loads the
serialized field metadata back; the compiler is external (pydal), and per
the specification the snapshot is consumed read-only and the metadata is
a pure function of snapshot and dialect, so the call is modelled as
returning the snapshot's field metadata.  `migrate_table` is likewise
external; per the specification it computes the SQL delta between the old
and new field metadata into the operation log, so the spec model emits a
log line exactly for each field whose metadata differs.  The alter
routine is parameterized over the migration behaviour so that its frame
property (claim C10) covers arbitrary behaviours, including exceptions.
-/

/-- The `_db` reference a snapshot carries (its dialect name used for
guessing, plus an identity so distinct DAL instances are distinct). -/
structure DB where
  dbname : Option String
  dbid : Nat
deriving Repr, DecidableEq

/-- A table snapshot (`pydal.objects.Table` as used by `core.py`). -/
structure Table where
  tname : String
  fields : List (String × String)
  db : DB
deriving Repr, DecidableEq

/-- Modelled from the spec: `sql_fields_through_tablefile` materializes
and reloads the snapshot's field metadata via the external schema
compiler, deterministically and without touching the snapshot. -/
def sql_fields_through_tablefile (t : Table) (_dbType : String) : List (String × String) :=
  t.fields

/-- Modelled from the spec: the external `Migrator.migrate_table` records
an operation-log line for exactly the fields whose metadata differs
between the old and the new mapping ("compute the SQL delta"). -/
def migrateTableLog (oldFields newFields : List (String × String)) : List String :=
  (newFields.map Prod.fst ++ oldFields.map Prod.fst).foldr
    (fun k acc =>
      if oldFields.lookup k = newFields.lookup k then acc
      else ("ALTER TABLE " ++ k ++ ";") :: acc) []

/-- The spec-modelled migration behaviour: never raises, log as above. -/
def specMigrate (newFields oldFields : List (String × String)) :
    Except String (List String) :=
  .ok (migrateTableLog oldFields newFields)

/-- Identical field metadata yields an empty operation log. -/
theorem migrateTableLog_self (f : List (String × String)) : migrateTableLog f f = [] := by
  unfold migrateTableLog
  generalize (f.map Prod.fst ++ f.map Prod.fst) = ks
  induction ks with
  | nil => rfl
  | cons k ks ih => simp [ih]

/-- The errors `generate_alter_statement` can propagate: no guessable
dialect, a configuration error from `_build_dummy_migrator`, or an
exception out of the migration itself. -/
inductive AlterError where
  | noDialect
  | badDriver (e : MigratorError)
  | migrateRaised (msg : String)
deriving Repr, DecidableEq

/-- Result of `generate_alter_statement` together with the final states
of the two snapshots (whose `_db` is temporarily repointed). -/
structure AlterResult where
  result : Except AlterError String
  finalOld : Table
  finalNew : Table
deriving Repr

/-- The dialect guess of `generate_alter_statement`: the explicit
argument, else the old snapshot's `_dbname`, else the new snapshot's. -/
def guessDbType (dbType : Option String) (tOld tNew : Table) : Option String :=
  match dbType with
  | some dt => some dt
  | none =>
      match tOld.db.dbname with
      | some dn => some dn
      | none => tNew.db.dbname

/-- `generate_alter_statement(define_table_old, define_table_new,
db_type)` of `core.py`: guess/validate the dialect, materialize old and
new field metadata, repoint both snapshots' `_db` at the migrator's db,
run the migration, filter the `sql.log` lines beginning with `ALTER` or
`UPDATE` (an absent log — empty in the model — short-circuits to the
empty string), and restore both `_db` attributes in the `finally` block
on every path.  The canonical drivers are assumed installed. -/
def generate_alter_statement
    (migrate : List (String × String) → List (String × String) → Except String (List String))
    (migratorDb : DB) (tOld tNew : Table) (dbType : Option String) : AlterResult :=
  match guessDbType dbType tOld tNew with
  | none => ⟨.error .noDialect, tOld, tNew⟩
  | some dt =>
      match _build_dummy_migrator dt SUPPORTED_DATABASE_TYPES with
      | .error e => ⟨.error (.badDriver e), tOld, tNew⟩
      | .ok _ =>
          let oldFields := sql_fields_through_tablefile tOld dt
          let newFields := sql_fields_through_tablefile tNew dt
          let o1 : Table := { tOld with db := migratorDb }
          let n1 : Table := { tNew with db := migratorDb }
          match migrate newFields oldFields with
          | .error msg =>
              ⟨.error (.migrateRaised msg),
                { o1 with db := tOld.db }, { n1 with db := tNew.db }⟩
          | .ok logLines =>
              if logLines = [] then
                ⟨.ok "", { o1 with db := tOld.db }, { n1 with db := tNew.db }⟩
              else
                ⟨.ok (String.join (logLines.filter
                      (fun l => l.startsWith "ALTER" || l.startsWith "UPDATE"))),
                  { o1 with db := tOld.db }, { n1 with db := tNew.db }⟩

/-- Claim C3.  Diffing any snapshot against itself under any supported
dialect yields the empty string: both metadata materializations agree, so
the spec-modelled migrator records no changes and the early
no-log return fires. -/
theorem C3_diff_idempotent (X : Table) (dt : String) (migratorDb : DB)
    (hsup : resolveDriverName dt ∈ SUPPORTED_DATABASE_TYPES) :
    (generate_alter_statement specMigrate migratorDb X X (some dt)).result = .ok "" := by
  have hb : _build_dummy_migrator dt SUPPORTED_DATABASE_TYPES = .ok (resolveDriverName dt) := by
    simp [_build_dummy_migrator, hsup]
  simp [generate_alter_statement, guessDbType, hb, specMigrate,
    sql_fields_through_tablefile, migrateTableLog_self]

/-- Witness for C3: a concrete snapshot diffed with itself under the
`sqlite` alias produces the empty string. -/
theorem C3_diff_idempotent_witness :
    (generate_alter_statement specMigrate ⟨none, 1⟩
        ⟨"person", [("id", "INTEGER PRIMARY KEY"), ("name", "TEXT")], ⟨none, 0⟩⟩
        ⟨"person", [("id", "INTEGER PRIMARY KEY"), ("name", "TEXT")], ⟨none, 0⟩⟩
        (some "sqlite")).result = .ok "" :=
  C3_diff_idempotent
    ⟨"person", [("id", "INTEGER PRIMARY KEY"), ("name", "TEXT")], ⟨none, 0⟩⟩
    "sqlite" ⟨none, 1⟩ (by decide)

/-- Claim C10.  On every exit path — dialect-guess failure, driver
rejection, an exception raised by the migration, the early empty-string
return, and the normal return — both snapshots leave
`generate_alter_statement` with exactly the `_db` (indeed the whole
snapshot) they entered with, for every migration behaviour. -/
theorem C10_db_restored
    (migrate : List (String × String) → List (String × String) → Except String (List String))
    (migratorDb : DB) (tOld tNew : Table) (dbType : Option String) :
    (generate_alter_statement migrate migratorDb tOld tNew dbType).finalOld = tOld ∧
    (generate_alter_statement migrate migratorDb tOld tNew dbType).finalNew = tNew := by
  constructor
  · unfold generate_alter_statement
    split
    · rfl
    · split
      · rfl
      · dsimp only
        split
        · rfl
        · split
          · rfl
          · rfl
  · unfold generate_alter_statement
    split
    · rfl
    · split
      · rfl
      · dsimp only
        split
        · rfl
        · split
          · rfl
          · rfl

end Pydal2Sql
